import Mathlib

/-!
Shallow embedding of the nonogram core (clue model, clue-completion engine,
win checker, auto-mark pass, game-state reducer, generator fallback) and
verification of its specified properties.

Source files embedded:
* `src/logic/clues.ts` — `lineClues`, `computeRowClues`, `computeColClues`,
  `lineMatchesClue`, `computeClueCompletion`
* `src/logic/check.ts` — `checkWin`
* `src/hooks/useGame.ts` — `autoMarkCompleted`, `createInitialState`,
  `gameReducer`
* `src/logic/generator.ts` — `fallback`
* `src/types.ts` — `CellState`, limits tables

Conventions: JS numbers that only ever hold small non-negative integers are
modelled as `Nat`; the countdown timer, which the code can drive through
subtraction, is modelled as `Int`; the generator's floating-point arithmetic
is modelled over `ℚ` with `Math.random()` results supplied as an explicit
stream. JS array indexing `a[i]` is modelled with `List.getD` (out-of-range
reads yield the neutral default exactly as the surrounding code treats
`undefined`), and in-place element assignment with `List.set`.
-/

/-- Cell states, from `src/types.ts`: `Empty = 0`, `Filled = 1`, `MarkedX = 2`. -/
inductive CellState where
  | Empty : CellState
  | Filled : CellState
  | MarkedX : CellState
deriving DecidableEq, Repr, BEq

open CellState

/-- `lineClues` (src/logic/clues.ts): run-lengths of the cells equal to `1`,
left to right; `[0]` when there is no such cell. The accumulator `run` holds
the length of the current unfinished run, as in the source loop. -/
def lineCluesGo (run : Nat) : List Nat → List Nat
  | [] => if run > 0 then [run] else []
  | cell :: rest =>
      if cell = 1 then lineCluesGo (run + 1) rest
      else if run > 0 then run :: lineCluesGo 0 rest
      else lineCluesGo 0 rest

/-- `lineClues` top level: emit runs, then `[0]` fallback when none. -/
def lineClues (line : List Nat) : List Nat :=
  let clues := lineCluesGo 0 line
  if clues.length > 0 then clues else [0]

/-- `computeRowClues` (src/logic/clues.ts). -/
def computeRowClues (solution : List (List Nat)) : List (List Nat) :=
  solution.map lineClues

/-- `computeColClues` (src/logic/clues.ts): clue of each extracted column. -/
def computeColClues (solution : List (List Nat)) : List (List Nat) :=
  (List.range (solution.headD []).length).map fun c =>
    lineClues (solution.map fun row => row.getD c 0)

/-- `lineMatchesClue` (src/logic/clues.ts): the line's derived clue must have
the clue's length and agree elementwise. -/
def lineMatchesClue (line clue : List Nat) : Bool :=
  let playerClue := lineClues line
  playerClue.length == clue.length &&
    (List.zip playerClue clue).all fun p => p.1 == p.2

theorem lineClues_roundtrip_aux (l : List Nat) :
    ((l.length == l.length) && (List.zip l l).all fun p => p.1 == p.2) = true := by
  simp only [beq_self_eq_true, Bool.true_and, List.all_eq_true]
  intro p hp
  have : p.1 = p.2 := by
    induction l with
    | nil => simp at hp
    | cons a t ih =>
        simp only [List.zip_cons_cons, List.mem_cons] at hp
        rcases hp with h | h
        · simp [h]
        · exact ih h
  simp [this]

/-- **C4**: For every line of binary values, `lineMatchesClue(line,
computeClues(line))` returns `true` — the clue derived from a line always
matches that same line (clue round-trip). Proved for every line of numbers,
which covers every binary line. -/
theorem lineMatchesClue_lineClues (line : List Nat) :
    lineMatchesClue line (lineClues line) = true := by
  unfold lineMatchesClue
  exact lineClues_roundtrip_aux (lineClues line)

/-- A maximal run of `Filled` cells (src/logic/clues.ts, `computeClueCompletion`):
`start` inclusive, `stop` exclusive (the source calls it `end`), `len = stop -
start`, and `sealed` when both ends are bounded by the line edge or a
`MarkedX` cell. -/
structure RunInfo where
  start : Nat
  stop : Nat
  len : Nat
  sealed : Bool
deriving DecidableEq, Repr

/-- Run decomposition scan. `i` is the index of the next cell, `prevX` records
whether position `i - 1` is the line edge or a `MarkedX` cell (the left-seal
test `start === 0 || line[start-1] === MarkedX`), and `cur` carries the start
and left-seal flag of the run currently being scanned. A run that reaches the
end of the line is right-sealed (`end === L`); a run ended by a cell `c` is
right-sealed exactly when `c` is `MarkedX`. -/
def runsGo (i : Nat) (prevX : Bool) (cur : Option (Nat × Bool)) :
    List CellState → List RunInfo
  | [] =>
      match cur with
      | none => []
      | some (s, ls) => [⟨s, i, i - s, ls⟩]
  | c :: rest =>
      match cur with
      | none =>
          if c = Filled then runsGo (i + 1) false (some (i, prevX)) rest
          else runsGo (i + 1) (decide (c = MarkedX)) none rest
      | some (s, ls) =>
          if c = Filled then runsGo (i + 1) false (some (s, ls)) rest
          else ⟨s, i, i - s, ls && decide (c = MarkedX)⟩ ::
            runsGo (i + 1) (decide (c = MarkedX)) none rest

/-- The maximal `Filled` runs of a line, left to right, as found by the
`while` scan of `computeClueCompletion`. Position 0 counts as left-sealed. -/
def runsOf (line : List CellState) : List RunInfo :=
  runsGo 0 true none line

/-- `minBefore(ci) = prefixSum[ci] + ci`: minimum cells consumed by clues
`0..ci-1` plus one gap each (src/logic/clues.ts). -/
def minBefore (clues : List Nat) (ci : Nat) : Nat :=
  (clues.take ci).sum + ci

/-- `minAfter(ci) = (prefixSum[n] - prefixSum[ci+1]) + (n - 1 - ci)`: minimum
cells required after clue `ci` for all later clues (src/logic/clues.ts). -/
def minAfter (clues : List Nat) (ci : Nat) : Nat :=
  (clues.drop (ci + 1)).sum + (clues.length - 1 - ci)

/-- Initial candidate clue indices for one run: the source tests the same
length equality in both the sealed and the unsealed branch, then the two
space bounds. -/
def candidatesFor (clues : List Nat) (L : Nat) (run : RunInfo) : List Nat :=
  (List.range clues.length).filter fun ci =>
    (if run.sealed then clues.getD ci 0 == run.len
     else clues.getD ci 0 == run.len) &&
    decide (minBefore clues ci ≤ run.start) &&
    decide (minAfter clues ci ≤ L - run.stop)

/-- Forward pruning pass body: each run's candidate set keeps only indices
strictly greater than the previous run's (already updated) minimal candidate;
runs after an empty candidate set are skipped (`continue`). -/
def forwardGo (prev : List Nat) : List (List Nat) → List (List Nat)
  | [] => []
  | cur :: rest =>
      if prev = [] then cur :: forwardGo cur rest
      else
        let cur' := cur.filter fun c => decide (prev.headD 0 < c)
        cur' :: forwardGo cur' rest

/-- Forward pruning pass: the first run's candidate set is never filtered. -/
def forwardPass : List (List Nat) → List (List Nat)
  | [] => []
  | first :: rest => first :: forwardGo first rest

/-- Backward pruning pass: right to left, each run's candidate set keeps only
indices strictly less than the next run's (already updated) maximal
candidate; a run before an empty candidate set is skipped. The last run is
never filtered. -/
def backwardPass : List (List Nat) → List (List Nat)
  | [] => []
  | [x] => [x]
  | cur :: next :: rest =>
      let tail := backwardPass (next :: rest)
      let nextSet := tail.headD []
      if nextSet = [] then cur :: tail
      else (cur.filter fun c => decide (c < nextSet.getLastD 0)) :: tail

/-- The `while (changed)` loop of `computeClueCompletion`: repeat the forward
then backward pass until no candidate set shrinks. Passes only remove
elements, so a pass changed something iff the list of candidate sets is not
equal to what it was; the loop therefore stops exactly at the first fixed
point. Fuel bounds the iteration count: each productive iteration strictly
decreases the total number of candidates, so `total + 1` iterations always
reach the fixed point and the fuelled loop equals the source loop. -/
def pruneLoop : Nat → List (List Nat) → List (List Nat)
  | 0, cands => cands
  | fuel + 1, cands =>
      let next := backwardPass (forwardPass cands)
      if next = cands then cands else pruneLoop fuel next

/-- Final marking: a clue index is completed iff some run's pruned candidate
set is the singleton of that index. -/
def markCompleted (n : Nat) (cands : List (List Nat)) : List Bool :=
  cands.foldl
    (fun res l =>
      match l with
      | [c] => res.set c true
      | _ => res)
    (List.replicate n false)

/-- `computeClueCompletion` (src/logic/clues.ts): per-clue completion flags
for a line against its clue list. -/
def computeClueCompletion (line : List CellState) (clues : List Nat) :
    List Bool :=
  let n := clues.length
  let L := line.length
  if n = 1 ∧ clues.getD 0 0 = 0 then
    [line.all fun c => !(c == Filled)]
  else
    let runs := runsOf line
    if runs = [] then List.replicate n false
    else
      let cands := runs.map (candidatesFor clues L)
      let final := pruneLoop ((cands.map List.length).sum + 1) cands
      markCompleted n final

/-- **C1 (counterexample)**: on the 6-cell line with one unsealed run of
length 2 at position 0 and clue `[2,2]`, `computeClueCompletion` does NOT
return `[false, false]`. -/
theorem computeClueCompletion_ambiguous_ne_false_false :
    computeClueCompletion [Filled, Filled, Empty, Empty, Empty, Empty] [2, 2]
      ≠ [false, false] := by decide

/-- **C1 (amended)**: on that line the engine returns `[true, false]`: the
run of length 2 starting at 0 satisfies the space bounds only for clue
index 0 (`minBefore(1) = 3 > 0`), so its candidate set is the singleton
`{0}` and the first clue is marked completed even though the run is
unsealed. -/
theorem computeClueCompletion_ambiguous_eq_true_false :
    computeClueCompletion [Filled, Filled, Empty, Empty, Empty, Empty] [2, 2]
      = [true, false] := by decide

/-- **C2**: for a clue list other than `[0]` and any maximal run of `Filled`
cells of the line, the run is placed in the initial candidate set of clue
index `i` iff its length equals `clues[i]` exactly, its start is at least
`minBefore(i) = sum(clues[0..i-1]) + i`, and the cells after its end are at
least `minAfter(i) = sum(clues[i+1..n-1]) + (n-1-i)`. -/
theorem mem_candidatesFor_iff (clues : List Nat) (line : List CellState)
    (run : RunInfo) (i : Nat) (_hne : clues ≠ [0]) (_hrun : run ∈ runsOf line)
    (hi : i < clues.length) :
    i ∈ candidatesFor clues line.length run ↔
      (clues.getD i 0 = run.len ∧
        (clues.take i).sum + i ≤ run.start ∧
        (clues.drop (i + 1)).sum + (clues.length - 1 - i) ≤
          line.length - run.stop) := by
  simp only [candidatesFor, minBefore, minAfter, List.mem_filter,
    List.mem_range, ite_self, Bool.and_eq_true, beq_iff_eq, decide_eq_true_eq]
  constructor
  · rintro ⟨-, ⟨h1, h2⟩, h3⟩
    exact ⟨h1, h2, h3⟩
  · rintro ⟨h1, h2, h3⟩
    exact ⟨hi, ⟨h1, h2⟩, h3⟩

/-- **C2 (witness)**: concrete instance — the run `(0,2,2,unsealed)` of the
C1 line is a candidate for clue index 0 of `[2,2]`, and the three conditions
hold there. -/
theorem mem_candidatesFor_iff_witness :
    0 ∈ candidatesFor [2, 2] 6 ⟨0, 2, 2, false⟩ ↔
      (List.getD [2, 2] 0 0 = 2 ∧
        (List.take 0 [2, 2]).sum + 0 ≤ 0 ∧
        (List.drop 1 [2, 2]).sum + (List.length [2, 2] - 1 - 0) ≤ 6 - 2) :=
  mem_candidatesFor_iff [2, 2]
    [Filled, Filled, Empty, Empty, Empty, Empty] ⟨0, 2, 2, false⟩ 0
    (by decide) (by decide) (by decide)

/-- `c === CellState.Filled ? 1 : 0` — the binary view of a cell used by
`checkWin` and `autoMarkCompleted`. -/
def fillBit (c : CellState) : Nat :=
  if c = Filled then 1 else 0

/-- The binary view of a row: `board[r].map((c) => c === Filled ? 1 : 0)`. -/
def rowBits (row : List CellState) : List Nat :=
  row.map fillBit

/-- The binary view of column `c`:
`board.map((row) => row[c] === Filled ? 1 : 0)` — a missing cell of a short
row reads as `undefined`, hence `0`, which `List.getD … Empty` reproduces. -/
def colBits (board : List (List CellState)) (c : Nat) : List Nat :=
  board.map fun row => fillBit (row.getD c Empty)

/-- `checkWin` (src/logic/check.ts): every row and every column of the board
must match its clue. -/
def checkWin (board : List (List CellState))
    (rowClues colClues : List (List Nat)) : Bool :=
  let cols := (board.headD []).length
  ((List.range board.length).all fun r =>
      lineMatchesClue (rowBits (board.getD r [])) (rowClues.getD r [])) &&
  ((List.range cols).all fun c =>
      lineMatchesClue (colBits board c) (colClues.getD c []))

/-- Index-aware map, used to model the indexed `for` loops of
`autoMarkCompleted`: the element at offset `j` of the result is
`f (k + j) x`. -/
def mapIdxGo (f : Nat → α → β) : Nat → List α → List β
  | _, [] => []
  | k, x :: xs => f k x :: mapIdxGo f (k + 1) xs

/-- `board[r][c] = MarkedX if Empty` — the per-cell effect of the auto-mark
loops. -/
def emptyToX (c : CellState) : CellState :=
  if c = CellState.Empty then MarkedX else c

/-- Whether row `r` with contents `row` currently matches its clue. -/
def rowLineDone (rowClues : List (List Nat)) (r : Nat)
    (row : List CellState) : Bool :=
  lineMatchesClue (rowBits row) (rowClues.getD r [])

/-- Row phase of `autoMarkCompleted` (src/hooks/useGame.ts): in the source
this is an in-place loop, but iteration `r` reads only `board[r]`, which no
earlier iteration touches, and rewrites only `board[r]`; so the loop equals
this index-aware map over the board as it was on entry. -/
def markRows (board : List (List CellState))
    (rowClues : List (List Nat)) : List (List CellState) :=
  mapIdxGo (fun r row => if rowLineDone rowClues r row then row.map emptyToX else row)
    0 board

/-- Whether column `c` of `board` currently matches its clue. -/
def colDone (board : List (List CellState)) (colClues : List (List Nat))
    (c : Nat) : Bool :=
  lineMatchesClue (colBits board c) (colClues.getD c [])

/-- Column phase of `autoMarkCompleted`: iteration `c` of the source loop
reads only column `c`, which no earlier column iteration touches, and its
writes hit only existing cells with index `< board[0].length`; so the loop
equals this per-cell rewrite against the board as it was after the row
phase. -/
def markCols (board : List (List CellState))
    (colClues : List (List Nat)) : List (List CellState) :=
  let n := (board.headD []).length
  board.map fun row =>
    mapIdxGo
      (fun c cell =>
        if c < n ∧ colDone board colClues c = true ∧ cell = CellState.Empty then
          MarkedX
        else cell)
      0 row

/-- `autoMarkCompleted` (src/hooks/useGame.ts): mark every `Empty` cell of a
clue-satisfied row, then of a clue-satisfied column, as `MarkedX`. -/
def autoMarkCompleted (board : List (List CellState))
    (rowClues colClues : List (List Nat)) : List (List CellState) :=
  markCols (markRows board rowClues) colClues

/-- `PuzzleDefinition` (src/types.ts). -/
structure PuzzleDefinition where
  name : String
  rows : Nat
  cols : Nat
  solution : List (List Nat)
  color : Option String
deriving DecidableEq, Repr

/-- `lostReason` values (src/types.ts): `'time' | 'errors'`. -/
inductive LostReason where
  | time : LostReason
  | errors : LostReason
deriving DecidableEq, Repr

/-- `InputMode` (src/types.ts): `'fill' | 'markX'`. -/
inductive InputMode where
  | fill : InputMode
  | markX : InputMode
deriving DecidableEq, Repr

/-- `GameState` (src/types.ts). `remaining` and `timeLimit` are seconds; they
are modelled as `Int` because `TICK` computes `remaining - 1` before
clamping. `errorCells` holds the `"row,col"` keys of the source `Set` as
pairs. -/
structure GameState where
  puzzle : PuzzleDefinition
  board : List (List CellState)
  rowClues : List (List Nat)
  colClues : List (List Nat)
  timeLimit : Int
  remaining : Int
  started : Bool
  won : Bool
  lost : Bool
  lostReason : Option LostReason
  errorCells : List (Nat × Nat)
  errorCount : Nat
  maxErrors : Nat
  inputMode : InputMode
deriving DecidableEq, Repr

/-- `GameAction` (src/types.ts). -/
inductive GameAction where
  | FILL_CELL (row col : Nat)
  | MARK_X (row col : Nat)
  | TICK
  | NEW_GAME (puzzle : PuzzleDefinition)
  | RESET
  | CLEAR_ERROR (row col : Nat)
  | SET_INPUT_MODE (mode : InputMode)
deriving DecidableEq, Repr

/-- `TIME_LIMITS[sizeKey(puzzle)] ?? 10 * 60` (src/types.ts +
src/hooks/useGame.ts): seconds per board size, default 600. -/
def timeLimitFor (rows cols : Nat) : Int :=
  if rows = 5 ∧ cols = 5 then 3 * 60
  else if rows = 10 ∧ cols = 10 then 10 * 60
  else if rows = 15 ∧ cols = 15 then 20 * 60
  else 10 * 60

/-- `ERROR_LIMITS[sizeKey(puzzle)] ?? 5` (src/types.ts +
src/hooks/useGame.ts). -/
def errorLimitFor (rows cols : Nat) : Nat :=
  if rows = 5 ∧ cols = 5 then 3
  else if rows = 10 ∧ cols = 10 then 5
  else if rows = 15 ∧ cols = 15 then 7
  else 5

/-- `createInitialState` (src/hooks/useGame.ts). -/
def createInitialState (puzzle : PuzzleDefinition) : GameState :=
  let limit := timeLimitFor puzzle.rows puzzle.cols
  { puzzle := puzzle
    board := List.replicate puzzle.rows (List.replicate puzzle.cols CellState.Empty)
    rowClues := computeRowClues puzzle.solution
    colClues := computeColClues puzzle.solution
    timeLimit := limit
    remaining := limit
    started := false
    won := false
    lost := false
    lostReason := none
    errorCells := []
    errorCount := 0
    maxErrors := errorLimitFor puzzle.rows puzzle.cols
    inputMode := InputMode.fill }

/-- `newBoard[row][col] = v` after `board.map((r) => [...r])`. -/
def setCell (board : List (List CellState)) (row col : Nat) (v : CellState) :
    List (List CellState) :=
  board.set row ((board.getD row []).set col v)

/-- `state.errorCells.add(key)` — a JS `Set` add. -/
def addKey (k : Nat × Nat) (l : List (Nat × Nat)) : List (Nat × Nat) :=
  if k ∈ l then l else k :: l

/-- The wrong-fill penalty, `PENALTY_SECONDS = 5`. -/
def PENALTY_SECONDS : Int := 5

/-- `gameReducer` (src/hooks/useGame.ts). Cell reads `state.board[row][col]`
and `state.puzzle.solution[row][col]` use `getD` defaults, matching the
in-range behavior the callers guarantee. -/
def gameReducer (state : GameState) (action : GameAction) : GameState :=
  match action with
  | .FILL_CELL row col =>
      if state.won || state.lost then state
      else
        let current := (state.board.getD row []).getD col CellState.Empty
        if current = MarkedX then state
        else if current = Filled then
          { state with board := setCell state.board row col CellState.Empty,
                       started := true }
        else if (state.puzzle.solution.getD row []).getD col 0 = 0 then
          let newErrorCount := state.errorCount + 1
          let newRemaining := max 0 (state.remaining - PENALTY_SECONDS)
          let errorsExhausted := decide (state.maxErrors ≤ newErrorCount)
          let timeOut := decide (newRemaining = 0)
          { state with
              board := setCell state.board row col MarkedX
              started := true
              remaining := newRemaining
              lost := errorsExhausted || timeOut
              lostReason :=
                if errorsExhausted = true then some LostReason.errors
                else if timeOut = true then some LostReason.time
                else none
              errorCells := addKey (row, col) state.errorCells
              errorCount := newErrorCount }
        else
          let newBoard :=
            autoMarkCompleted (setCell state.board row col Filled)
              state.rowClues state.colClues
          { state with board := newBoard, started := true,
                       won := checkWin newBoard state.rowClues state.colClues }
  | .MARK_X row col =>
      if state.won || state.lost then state
      else
        let current := (state.board.getD row []).getD col CellState.Empty
        if current = Filled then state
        else if current = MarkedX then
          { state with board := setCell state.board row col CellState.Empty,
                       started := true }
        else if (state.puzzle.solution.getD row []).getD col 0 = 1 then
          let newErrorCount := state.errorCount + 1
          let newRemaining := max 0 (state.remaining - PENALTY_SECONDS)
          let errorsExhausted := decide (state.maxErrors ≤ newErrorCount)
          let timeOut := decide (newRemaining = 0)
          let newBoard :=
            autoMarkCompleted (setCell state.board row col Filled)
              state.rowClues state.colClues
          let won := checkWin newBoard state.rowClues state.colClues
          { state with
              board := newBoard
              started := true
              remaining := newRemaining
              lost := errorsExhausted || timeOut
              lostReason :=
                if errorsExhausted = true then some LostReason.errors
                else if timeOut = true then some LostReason.time
                else none
              won := if errorsExhausted || timeOut then false else won
              errorCells := addKey (row, col) state.errorCells
              errorCount := newErrorCount }
        else
          { state with board := setCell state.board row col MarkedX,
                       started := true }
  | .CLEAR_ERROR row col =>
      if (row, col) ∉ state.errorCells then state
      else
        { state with
            errorCells := state.errorCells.filter fun k => !(k == (row, col)) }
  | .SET_INPUT_MODE mode => { state with inputMode := mode }
  | .TICK =>
      if !state.started || state.won || state.lost then state
      else
        let newRemaining := state.remaining - 1
        if newRemaining ≤ 0 then
          { state with remaining := 0, lost := true,
                       lostReason := some LostReason.time }
        else { state with remaining := newRemaining }
  | .NEW_GAME puzzle => createInitialState puzzle
  | .RESET => createInitialState state.puzzle

/-- A small concrete puzzle used by closed witnesses. -/
def demoPuzzle : PuzzleDefinition :=
  ⟨"demo", 2, 2, [[1, 0], [0, 1]], none⟩

/-- A terminal (`won`) state over `demoPuzzle`. -/
def demoWonState : GameState :=
  { createInitialState demoPuzzle with won := true }

/-- **C8**: once `won` or `lost` is set, `FILL_CELL` and `MARK_X` are
no-ops: the reducer returns the state unchanged, so the board, the timer,
the error count and the terminal flags never change again through fill or
mark. -/
theorem gameReducer_terminal_noop (s : GameState) (r c r' c' : Nat)
    (h : s.won = true ∨ s.lost = true) :
    gameReducer s (GameAction.FILL_CELL r c) = s ∧
      gameReducer s (GameAction.MARK_X r' c') = s := by
  unfold gameReducer
  rcases h with h | h <;> simp [h]

/-- **C8 (witness)**: concrete terminal state left unchanged. -/
theorem gameReducer_terminal_noop_witness :
    gameReducer demoWonState (GameAction.FILL_CELL 0 0) = demoWonState ∧
      gameReducer demoWonState (GameAction.MARK_X 1 1) = demoWonState :=
  gameReducer_terminal_noop demoWonState 0 0 1 1 (Or.inl rfl)

/-- The state after a wrong fill (`FILL_CELL` on an `Empty` cell whose
solution value is `0`), spelled out from the source branch. -/
def afterWrongFill (s : GameState) (r c : Nat) : GameState :=
  { s with
      board := setCell s.board r c MarkedX
      started := true
      remaining := max 0 (s.remaining - PENALTY_SECONDS)
      lost := decide (s.maxErrors ≤ s.errorCount + 1) ||
        decide (max 0 (s.remaining - PENALTY_SECONDS) = 0)
      lostReason :=
        if s.maxErrors ≤ s.errorCount + 1 then some LostReason.errors
        else if max 0 (s.remaining - PENALTY_SECONDS) = 0 then
          some LostReason.time
        else none
      errorCells := addKey (r, c) s.errorCells
      errorCount := s.errorCount + 1 }

/-- Shared characterization of the wrong-fill branch of `gameReducer`. -/
theorem gameReducer_wrongFill (s : GameState) (r c : Nat)
    (hw : s.won = false) (hl : s.lost = false)
    (hcell : (s.board.getD r []).getD c CellState.Empty = CellState.Empty)
    (hsol : (s.puzzle.solution.getD r []).getD c 0 = 0) :
    gameReducer s (GameAction.FILL_CELL r c) = afterWrongFill s r c := by
  simp only [List.getD_eq_getElem?_getD] at hcell hsol
  unfold gameReducer afterWrongFill
  rw [hw, hl]
  simp [hcell, hsol]

/-- The state after a wrong mark (`MARK_X` on an `Empty` cell whose solution
value is `1`), spelled out from the source branch. -/
def afterWrongMark (s : GameState) (r c : Nat) : GameState :=
  { s with
      board := autoMarkCompleted (setCell s.board r c Filled)
        s.rowClues s.colClues
      started := true
      remaining := max 0 (s.remaining - PENALTY_SECONDS)
      lost := decide (s.maxErrors ≤ s.errorCount + 1) ||
        decide (max 0 (s.remaining - PENALTY_SECONDS) = 0)
      lostReason :=
        if s.maxErrors ≤ s.errorCount + 1 then some LostReason.errors
        else if max 0 (s.remaining - PENALTY_SECONDS) = 0 then
          some LostReason.time
        else none
      won :=
        if decide (s.maxErrors ≤ s.errorCount + 1) ||
            decide (max 0 (s.remaining - PENALTY_SECONDS) = 0) then false
        else
          checkWin
            (autoMarkCompleted (setCell s.board r c Filled)
              s.rowClues s.colClues)
            s.rowClues s.colClues
      errorCells := addKey (r, c) s.errorCells
      errorCount := s.errorCount + 1 }

/-- Shared characterization of the wrong-mark branch of `gameReducer`. -/
theorem gameReducer_wrongMark (s : GameState) (r c : Nat)
    (hw : s.won = false) (hl : s.lost = false)
    (hcell : (s.board.getD r []).getD c CellState.Empty = CellState.Empty)
    (hsol : (s.puzzle.solution.getD r []).getD c 0 = 1) :
    gameReducer s (GameAction.MARK_X r c) = afterWrongMark s r c := by
  simp only [List.getD_eq_getElem?_getD] at hcell hsol
  unfold gameReducer afterWrongMark
  rw [hw, hl]
  simp [hcell, hsol]

/-- Reading a cell other than the one just written is unchanged. -/
theorem getD_setCell_ne (b : List (List CellState)) (r1 c1 r2 c2 : Nat)
    (v : CellState) (h : (r2, c2) ≠ (r1, c1)) :
    ((setCell b r1 c1 v).getD r2 []).getD c2 CellState.Empty =
      (b.getD r2 []).getD c2 CellState.Empty := by
  unfold setCell
  by_cases hr : r2 = r1
  · subst hr
    have hc : c1 ≠ c2 := by
      intro hc; exact h (by rw [hc])
    by_cases hlen : r2 < b.length
    · simp only [List.getD_eq_getElem?_getD, List.getElem?_set_self',
        List.getElem?_eq_getElem hlen, Option.map_some, Option.getD_some,
        Function.const_apply]
      rw [List.getElem?_set_ne hc]
    · rw [List.set_eq_of_length_le (Nat.le_of_not_lt hlen)]
  · simp only [List.getD_eq_getElem?_getD]
    rw [List.getElem?_set_ne (Ne.symm hr)]

/-- A lost state absorbs `FILL_CELL` (shared helper). -/
theorem gameReducer_fill_noop_lost (s : GameState) (r c : Nat)
    (hl : s.lost = true) : gameReducer s (GameAction.FILL_CELL r c) = s := by
  unfold gameReducer
  simp [hl]

/-- Puzzle with three wrong (solution `0`) cells, for the C3 scenario. -/
def c3Puzzle : PuzzleDefinition :=
  ⟨"c3", 3, 3, [[1, 0, 0], [0, 1, 0], [0, 0, 1]], none⟩

/-- The C3 starting state: a `Playing` state with `remaining = 10`,
`errorCount = 0`, `maxErrors = 3`. -/
def c3State : GameState :=
  { createInitialState c3Puzzle with remaining := 10, maxErrors := 3 }

/-- **C3 (counterexample)**: from a `Playing` state with `remaining = 10`,
`errorCount = 0`, `maxErrors = 3`, three consecutive wrong fills do NOT
produce `lostReason = 'errors'`: the game is lost, but with reason `'time'`
— the second wrong fill's 5-second penalty clamps `remaining` to 0 before
the error budget of 3 is exhausted. -/
theorem c3_counterexample :
    (gameReducer (gameReducer (gameReducer c3State (GameAction.FILL_CELL 0 1))
        (GameAction.FILL_CELL 0 2)) (GameAction.FILL_CELL 1 0)).lost = true ∧
    (gameReducer (gameReducer (gameReducer c3State (GameAction.FILL_CELL 0 1))
        (GameAction.FILL_CELL 0 2)) (GameAction.FILL_CELL 1 0)).lostReason ≠
      some LostReason.errors := by
  decide

/-- **C3 (amended)**: from any `Playing` state with `remaining = 10`,
`errorCount = 0`, `maxErrors = 3`: one wrong fill yields `remaining = 5`,
`errorCount = 1`, `lost = false`; three consecutive wrong fills (on distinct
wrong cells) yield `lost = true` with `lostReason = 'time'`, not `'errors'`:
the second wrong fill's clamped time penalty reaches 0 first, and the third
fill is a no-op on the already-lost state. -/
theorem wrongFill_penalty_then_time_loss (s : GameState)
    (r1 c1 r2 c2 r3 c3 : Nat)
    (hw : s.won = false) (hl : s.lost = false)
    (hrem : s.remaining = 10) (herrc : s.errorCount = 0)
    (hmax : s.maxErrors = 3)
    (hcell1 : (s.board.getD r1 []).getD c1 CellState.Empty = CellState.Empty)
    (hsol1 : (s.puzzle.solution.getD r1 []).getD c1 0 = 0)
    (hne : (r2, c2) ≠ (r1, c1))
    (hcell2 : (s.board.getD r2 []).getD c2 CellState.Empty = CellState.Empty)
    (hsol2 : (s.puzzle.solution.getD r2 []).getD c2 0 = 0) :
    ((gameReducer s (GameAction.FILL_CELL r1 c1)).remaining = 5 ∧
     (gameReducer s (GameAction.FILL_CELL r1 c1)).errorCount = 1 ∧
     (gameReducer s (GameAction.FILL_CELL r1 c1)).lost = false) ∧
    ((gameReducer (gameReducer (gameReducer s (GameAction.FILL_CELL r1 c1))
        (GameAction.FILL_CELL r2 c2)) (GameAction.FILL_CELL r3 c3)).lost =
        true ∧
     (gameReducer (gameReducer (gameReducer s (GameAction.FILL_CELL r1 c1))
        (GameAction.FILL_CELL r2 c2)) (GameAction.FILL_CELL r3 c3)).lostReason
        = some LostReason.time) := by
  have e1 := gameReducer_wrongFill s r1 c1 hw hl hcell1 hsol1
  rw [e1]
  constructor
  · refine ⟨?_, ?_, ?_⟩ <;>
      simp only [afterWrongFill, hrem, herrc, hmax, PENALTY_SECONDS] <;>
      decide
  · have e2 := gameReducer_wrongFill (afterWrongFill s r1 c1) r2 c2
      (by simp [afterWrongFill, hw])
      (by simp only [afterWrongFill, hrem, herrc, hmax, PENALTY_SECONDS]
          decide)
      (by
        show ((setCell s.board r1 c1 MarkedX).getD r2 []).getD c2
            CellState.Empty = CellState.Empty
        exact (getD_setCell_ne s.board r1 c1 r2 c2 MarkedX hne).trans hcell2)
      hsol2
    rw [e2]
    have hlost2 : (afterWrongFill (afterWrongFill s r1 c1) r2 c2).lost =
        true := by
      simp only [afterWrongFill, hrem, herrc, hmax, PENALTY_SECONDS]
      decide
    rw [gameReducer_fill_noop_lost _ r3 c3 hlost2]
    refine ⟨hlost2, ?_⟩
    simp only [afterWrongFill, hrem, herrc, hmax, PENALTY_SECONDS]
    decide

/-- **C3 (witness)**: the amended claim at the concrete C3 state. -/
theorem wrongFill_penalty_then_time_loss_witness :
    ((gameReducer c3State (GameAction.FILL_CELL 0 1)).remaining = 5 ∧
     (gameReducer c3State (GameAction.FILL_CELL 0 1)).errorCount = 1 ∧
     (gameReducer c3State (GameAction.FILL_CELL 0 1)).lost = false) ∧
    ((gameReducer (gameReducer (gameReducer c3State
        (GameAction.FILL_CELL 0 1)) (GameAction.FILL_CELL 0 2))
        (GameAction.FILL_CELL 1 0)).lost = true ∧
     (gameReducer (gameReducer (gameReducer c3State
        (GameAction.FILL_CELL 0 1)) (GameAction.FILL_CELL 0 2))
        (GameAction.FILL_CELL 1 0)).lostReason = some LostReason.time) :=
  wrongFill_penalty_then_time_loss c3State 0 1 0 2 1 0 rfl rfl rfl rfl rfl
    (by decide) (by decide) (by decide) (by decide) (by decide)

/-- **C6**: when a wrong fill simultaneously makes the new error count reach
`maxErrors` and the penalized remaining time reach 0, the state is lost with
`lostReason = 'errors'` (not `'time'`): the error check is evaluated first.
The wrong mark (`MARK_X` on a cell whose solution value is 1) behaves the
same way. -/
theorem wrongMove_simultaneous_loss_reason_errors (s : GameState) (r c : Nat)
    (hw : s.won = false) (hl : s.lost = false)
    (hcell : (s.board.getD r []).getD c CellState.Empty = CellState.Empty)
    (herr : s.errorCount + 1 = s.maxErrors)
    (_htime : max 0 (s.remaining - PENALTY_SECONDS) = 0) :
    ((s.puzzle.solution.getD r []).getD c 0 = 0 →
      (gameReducer s (GameAction.FILL_CELL r c)).lost = true ∧
      (gameReducer s (GameAction.FILL_CELL r c)).lostReason =
        some LostReason.errors) ∧
    ((s.puzzle.solution.getD r []).getD c 0 = 1 →
      (gameReducer s (GameAction.MARK_X r c)).lost = true ∧
      (gameReducer s (GameAction.MARK_X r c)).lostReason =
        some LostReason.errors) := by
  have he : s.maxErrors ≤ s.errorCount + 1 := le_of_eq herr.symm
  constructor
  · intro hsol
    rw [gameReducer_wrongFill s r c hw hl hcell hsol]
    exact ⟨by simp [afterWrongFill, he], by simp [afterWrongFill, he]⟩
  · intro hsol
    rw [gameReducer_wrongMark s r c hw hl hcell hsol]
    exact ⟨by simp [afterWrongMark, he], by simp [afterWrongMark, he]⟩

/-- The C6 starting state: one error from the budget, `remaining = 5` so the
penalty clamps to exactly 0. -/
def c6State : GameState :=
  { createInitialState c3Puzzle with
      remaining := 5, errorCount := 2, maxErrors := 3 }

/-- **C6 (witness)**: the simultaneous-loss precedence at a concrete state,
for a wrong fill at `(0,1)` and a wrong mark at `(0,0)`. -/
theorem wrongMove_simultaneous_loss_reason_errors_witness :
    (gameReducer c6State (GameAction.FILL_CELL 0 1)).lost = true ∧
    (gameReducer c6State (GameAction.FILL_CELL 0 1)).lostReason =
      some LostReason.errors ∧
    (gameReducer c6State (GameAction.MARK_X 0 0)).lost = true ∧
    (gameReducer c6State (GameAction.MARK_X 0 0)).lostReason =
      some LostReason.errors := by
  have h1 := wrongMove_simultaneous_loss_reason_errors c6State 0 1 rfl rfl
    (by decide) rfl (by decide)
  have h2 := wrongMove_simultaneous_loss_reason_errors c6State 0 0 rfl rfl
    (by decide) rfl (by decide)
  exact ⟨(h1.1 (by decide)).1, (h1.1 (by decide)).2,
    (h2.2 (by decide)).1, (h2.2 (by decide)).2⟩

/-- The initial timer value is one of the non-negative table constants. -/
theorem createInitialState_remaining_nonneg (p : PuzzleDefinition) :
    0 ≤ (createInitialState p).remaining := by
  show (0 : Int) ≤ timeLimitFor p.rows p.cols
  unfold timeLimitFor
  split_ifs <;> norm_num

/-- Every reducer step keeps the timer non-negative. -/
theorem gameReducer_remaining_nonneg (s : GameState) (a : GameAction)
    (h : 0 ≤ s.remaining) : 0 ≤ (gameReducer s a).remaining := by
  cases a with
  | FILL_CELL r c =>
      unfold gameReducer
      dsimp only
      split_ifs <;> (try dsimp only) <;>
        first | exact h | exact le_max_left (0 : Int) _
  | MARK_X r c =>
      unfold gameReducer
      dsimp only
      split_ifs <;> (try dsimp only) <;>
        first | exact h | exact le_max_left (0 : Int) _
  | TICK =>
      unfold gameReducer
      dsimp only
      split_ifs with h1 h2
      · exact h
      · norm_num
      · dsimp only
        omega
  | NEW_GAME p => exact createInitialState_remaining_nonneg p
  | RESET => exact createInitialState_remaining_nonneg s.puzzle
  | CLEAR_ERROR r c =>
      unfold gameReducer
      dsimp only
      split_ifs <;> exact h
  | SET_INPUT_MODE m => exact h

/-- States reachable from `createInitialState` by reducer actions. -/
inductive Reachable : GameState → Prop where
  | init (p : PuzzleDefinition) : Reachable (createInitialState p)
  | step (s : GameState) (a : GameAction) :
      Reachable s → Reachable (gameReducer s a)

/-- **C9**: every state reachable from `createInitialState` (whose time
limit is one of the non-negative table constants) by any sequence of reducer
actions has `remaining ≥ 0`: the wrong-fill and wrong-mark penalties clamp
at 0 via `max(0, remaining - 5)` and `TICK` writes exactly 0 when the
decrement would reach or pass 0. -/
theorem reachable_remaining_nonneg (s : GameState) (h : Reachable s) :
    0 ≤ s.remaining := by
  induction h with
  | init p => exact createInitialState_remaining_nonneg p
  | step s a _ ih => exact gameReducer_remaining_nonneg s a ih

/-- **C9 (witness)**: the invariant at a concrete reachable state — the
initial demo state after one `TICK`. -/
theorem reachable_remaining_nonneg_witness :
    0 ≤ (gameReducer (createInitialState demoPuzzle) GameAction.TICK).remaining :=
  reachable_remaining_nonneg _
    (Reachable.step _ GameAction.TICK (Reachable.init demoPuzzle))

/-- `getD` after `map`, when the default is preserved by the function. -/
theorem getD_map_fix {α β : Type} (f : α → β) (l : List α) (i : Nat)
    (d : α) : (l.map f).getD i (f d) = f (l.getD i d) := by
  induction l generalizing i with
  | nil => simp
  | cons a t ih =>
      cases i with
      | zero => simp
      | succ n => simp [ih]

/-- Two lists with equal length and pointwise-equal images have equal
maps. -/
theorem map_eq_map_of_getD {α β : Type} (f : α → β) (l1 l2 : List α)
    (d : α) (hlen : l1.length = l2.length)
    (h : ∀ i, f (l1.getD i d) = f (l2.getD i d)) :
    l1.map f = l2.map f := by
  apply List.ext_getElem
  · simpa using hlen
  · intro i h1 h2
    have hi1 : i < l1.length := by simpa using h1
    have hi2 : i < l2.length := by simpa using h2
    have hh := h i
    rw [List.getD_eq_getElem?_getD, List.getElem?_eq_getElem hi1,
      Option.getD_some, List.getD_eq_getElem?_getD,
      List.getElem?_eq_getElem hi2, Option.getD_some] at hh
    simpa using hh

/-- The head default equals index-0 `getD`. -/
theorem headD_eq_getD_zero {α : Type} (l : List α) (d : α) :
    l.headD d = l.getD 0 d := by
  cases l <;> rfl

/-- Cells that agree on being `Filled` have the same `fillBit`. -/
theorem fillBit_eq_of_iff (x y : CellState)
    (h : x = Filled ↔ y = Filled) : fillBit x = fillBit y := by
  unfold fillBit
  by_cases hx : x = Filled
  · rw [if_pos hx, if_pos (h.mp hx)]
  · rw [if_neg hx, if_neg (fun hy => hx (h.mpr hy))]

/-- `checkWin` is determined by the positions of `Filled` cells (shared
helper). -/
theorem checkWin_eq_of_fillAgree (b1 b2 : List (List CellState))
    (rowClues colClues : List (List Nat))
    (hlen : b1.length = b2.length)
    (hrow : ∀ r, (b1.getD r []).length = (b2.getD r []).length)
    (hfill : ∀ r c, ((b1.getD r []).getD c CellState.Empty = Filled ↔
      (b2.getD r []).getD c CellState.Empty = Filled)) :
    checkWin b1 rowClues colClues = checkWin b2 rowClues colClues := by
  have hbits : ∀ r, rowBits (b1.getD r []) = rowBits (b2.getD r []) := by
    intro r
    exact map_eq_map_of_getD fillBit _ _ CellState.Empty (hrow r)
      (fun c => fillBit_eq_of_iff _ _ (hfill r c))
  have hcols : ∀ c, colBits b1 c = colBits b2 c := by
    intro c
    exact map_eq_map_of_getD (fun row => fillBit (row.getD c CellState.Empty))
      b1 b2 [] hlen (fun r => fillBit_eq_of_iff _ _ (hfill r c))
  have hw : (b1.headD []).length = (b2.headD []).length := by
    rw [headD_eq_getD_zero, headD_eq_getD_zero]; exact hrow 0
  unfold checkWin
  dsimp only
  rw [hlen, hw]
  congr 1
  · congr 1
    funext r
    rw [hbits r]
  · congr 1
    funext c
    rw [hcols c]

/-- `MarkedX → Empty`, the rewrite of part two of the claim. -/
def xToEmpty (c : CellState) : CellState :=
  if c = MarkedX then CellState.Empty else c

/-- **C10**: `checkWin` depends only on which cells are `Filled` — two
boards of the same dimensions agreeing on `Filled` positions get the same
verdict for any clue arrays, and replacing every `MarkedX` by `Empty`
changes nothing. -/
theorem checkWin_fill_pattern_only (b1 b2 : List (List CellState))
    (rowClues colClues : List (List Nat))
    (hlen : b1.length = b2.length)
    (hrow : ∀ r, (b1.getD r []).length = (b2.getD r []).length)
    (hfill : ∀ r c, ((b1.getD r []).getD c CellState.Empty = Filled ↔
      (b2.getD r []).getD c CellState.Empty = Filled)) :
    checkWin b1 rowClues colClues = checkWin b2 rowClues colClues ∧
    checkWin (b1.map (List.map xToEmpty)) rowClues colClues =
      checkWin b1 rowClues colClues := by
  constructor
  · exact checkWin_eq_of_fillAgree b1 b2 rowClues colClues hlen hrow hfill
  · apply checkWin_eq_of_fillAgree
    · simp
    · intro r
      have : (b1.map (List.map xToEmpty)).getD r (List.map xToEmpty []) =
          List.map xToEmpty (b1.getD r []) := getD_map_fix _ b1 r []
      simp only [List.map_nil] at this
      rw [this, List.length_map]
    · intro r c
      have h1 : (b1.map (List.map xToEmpty)).getD r (List.map xToEmpty []) =
          List.map xToEmpty (b1.getD r []) := getD_map_fix _ b1 r []
      simp only [List.map_nil] at h1
      rw [h1]
      have h2 : ((b1.getD r []).map xToEmpty).getD c (xToEmpty CellState.Empty)
          = xToEmpty ((b1.getD r []).getD c CellState.Empty) :=
        getD_map_fix xToEmpty _ c CellState.Empty
      have hx : xToEmpty CellState.Empty = CellState.Empty := rfl
      rw [hx] at h2
      rw [h2]
      cases (b1.getD r []).getD c CellState.Empty <;> simp [xToEmpty]

/-- **C10 (witness)**: two concrete boards agreeing on `Filled` cells (one
has a `MarkedX` where the other is `Empty`) get the same verdict; and
erasing the mark leaves the verdict unchanged. -/
theorem checkWin_fill_pattern_only_witness :
    checkWin [[Filled, MarkedX]] [[1]] [[1], [0]] =
      checkWin [[Filled, CellState.Empty]] [[1]] [[1], [0]] ∧
    checkWin ([[Filled, MarkedX]].map (List.map xToEmpty)) [[1]] [[1], [0]] =
      checkWin [[Filled, MarkedX]] [[1]] [[1], [0]] :=
  checkWin_fill_pattern_only [[Filled, MarkedX]] [[Filled, CellState.Empty]]
    [[1]] [[1], [0]] rfl
    (fun r =>
      match r with
      | 0 => rfl
      | _ + 1 => rfl)
    (fun r c =>
      match r, c with
      | 0, 0 => Iff.rfl
      | 0, 1 => iff_of_false (by decide) (by decide)
      | 0, _ + 2 => Iff.rfl
      | _ + 1, _ => Iff.rfl)

theorem length_mapIdxGo {α β : Type} (f : Nat → α → β) (k : Nat)
    (l : List α) : (mapIdxGo f k l).length = l.length := by
  induction l generalizing k with
  | nil => rfl
  | cons a t ih => simp [mapIdxGo, ih]

theorem getElem?_mapIdxGo {α β : Type} (f : Nat → α → β) (k : Nat)
    (l : List α) (i : Nat) :
    (mapIdxGo f k l)[i]? = Option.map (f (k + i)) l[i]? := by
  induction l generalizing k i with
  | nil => simp [mapIdxGo]
  | cons a t ih =>
      cases i with
      | zero => simp [mapIdxGo]
      | succ n =>
          simp only [mapIdxGo, List.getElem?_cons_succ, ih (k + 1) n]
          have : k + 1 + n = k + (n + 1) := by omega
          rw [this]

theorem get_mapIdxGo {α β : Type} (f : Nat → α → β) (k : Nat) (l : List α)
    (i : Nat) (h : i < (mapIdxGo f k l).length) :
    (mapIdxGo f k l).get ⟨i, h⟩ =
      f (k + i) (l.get ⟨i, by rw [← length_mapIdxGo f k l]; exact h⟩) := by
  have hi : i < l.length := by rw [← length_mapIdxGo f k l]; exact h
  have h1 := getElem?_mapIdxGo f k l i
  rw [List.getElem?_eq_getElem h, List.getElem?_eq_getElem hi] at h1
  simpa using h1

theorem mapIdxGo_eq_self {α : Type} (f : Nat → α → α) (l : List α) (k : Nat)
    (h : ∀ j (hj : j < l.length), f (k + j) (l.get ⟨j, hj⟩) = l.get ⟨j, hj⟩) :
    mapIdxGo f k l = l := by
  induction l generalizing k with
  | nil => rfl
  | cons a t ih =>
      have h0 := h 0 (by simp)
      simp only [List.get] at h0
      rw [Nat.add_zero] at h0
      have ht : mapIdxGo f (k + 1) t = t := by
        apply ih
        intro j hj
        have := h (j + 1) (by simpa using Nat.succ_lt_succ hj)
        simp only [List.get] at this
        have harith : k + (j + 1) = k + 1 + j := by omega
        rwa [harith] at this
      simp [mapIdxGo, h0, ht]

theorem map_eq_self_of_mem {α : Type} (f : α → α) (l : List α)
    (h : ∀ x ∈ l, f x = x) : l.map f = l := by
  induction l with
  | nil => rfl
  | cons a t ih =>
      simp only [List.map_cons, h a (by simp)]
      rw [ih fun x hx => h x (by simp [hx])]

theorem mapIdxGo_eq_self_of_mem {α : Type} (f : Nat → α → α) (l : List α)
    (k : Nat) (h : ∀ i x, x ∈ l → f i x = x) : mapIdxGo f k l = l := by
  apply mapIdxGo_eq_self
  intro j hj
  exact h (k + j) _ (List.get_mem l j hj)

theorem fillBit_emptyToX (x : CellState) :
    fillBit (emptyToX x) = fillBit x := by
  cases x <;> rfl

theorem emptyToX_ne_empty (x : CellState) :
    emptyToX x ≠ CellState.Empty := by
  cases x <;> simp [emptyToX]

theorem rowBits_map_emptyToX (l : List CellState) :
    rowBits (l.map emptyToX) = rowBits l := by
  unfold rowBits
  rw [List.map_map]
  exact List.map_congr_left fun x _ => fillBit_emptyToX x

theorem rowBits_mapIdxGo (f : Nat → CellState → CellState)
    (hf : ∀ i x, fillBit (f i x) = fillBit x) (k : Nat)
    (l : List CellState) : rowBits (mapIdxGo f k l) = rowBits l := by
  induction l generalizing k with
  | nil => rfl
  | cons a t ih =>
      simp only [mapIdxGo, rowBits, List.map_cons]
      rw [hf k a]
      exact congrArg _ (ih (k + 1))

theorem fillBit_getD_map_emptyToX (l : List CellState) (c : Nat) :
    fillBit ((l.map emptyToX).getD c CellState.Empty) =
      fillBit (l.getD c CellState.Empty) := by
  rw [List.getD_eq_getElem?_getD, List.getElem?_map,
    List.getD_eq_getElem?_getD]
  cases l[c]? with
  | none => rfl
  | some x => simp [fillBit_emptyToX]

theorem fillBit_getD_mapIdxGo (f : Nat → CellState → CellState)
    (hf : ∀ i x, fillBit (f i x) = fillBit x) (k : Nat)
    (l : List CellState) (c : Nat) :
    fillBit ((mapIdxGo f k l).getD c CellState.Empty) =
      fillBit (l.getD c CellState.Empty) := by
  rw [List.getD_eq_getElem?_getD, getElem?_mapIdxGo,
    List.getD_eq_getElem?_getD]
  cases l[c]? with
  | none => rfl
  | some x => simp [hf]

theorem length_markRows (b : List (List CellState))
    (rc : List (List Nat)) : (markRows b rc).length = b.length := by
  unfold markRows
  exact length_mapIdxGo _ 0 b

theorem length_markCols (b : List (List CellState))
    (cc : List (List Nat)) : (markCols b cc).length = b.length := by
  simp [markCols]

theorem getD_markRows (b : List (List CellState)) (rc : List (List Nat))
    (r : Nat) :
    (markRows b rc).getD r [] =
      (if rowLineDone rc r (b.getD r []) then (b.getD r []).map emptyToX
       else b.getD r []) := by
  unfold markRows
  rw [List.getD_eq_getElem?_getD, getElem?_mapIdxGo,
    List.getD_eq_getElem?_getD]
  cases hb : b[r]? with
  | none => simp
  | some row => simp

theorem getD_markCols (b : List (List CellState)) (cc : List (List Nat))
    (r : Nat) :
    (markCols b cc).getD r [] =
      mapIdxGo
        (fun c cell =>
          if c < (b.headD []).length ∧ colDone b cc c = true ∧
              cell = CellState.Empty then MarkedX
          else cell)
        0 (b.getD r []) := by
  unfold markCols
  dsimp only
  rw [List.getD_eq_getElem?_getD, List.getElem?_map,
    List.getD_eq_getElem?_getD]
  cases hb : b[r]? with
  | none => simp [mapIdxGo]
  | some row => simp

theorem rowBits_getD_markRows (b : List (List CellState))
    (rc : List (List Nat)) (r : Nat) :
    rowBits ((markRows b rc).getD r []) = rowBits (b.getD r []) := by
  rw [getD_markRows]
  split_ifs with h
  · exact rowBits_map_emptyToX _
  · rfl

theorem fillBit_colCell (b : List (List CellState)) (cc : List (List Nat))
    (i : Nat) (x : CellState) :
    fillBit
      (if i < (b.headD []).length ∧ colDone b cc i = true ∧
          x = CellState.Empty then MarkedX
       else x) = fillBit x := by
  split_ifs with h
  · obtain ⟨-, -, hx⟩ := h
    subst hx
    rfl
  · rfl

theorem rowBits_getD_markCols (b : List (List CellState))
    (cc : List (List Nat)) (r : Nat) :
    rowBits ((markCols b cc).getD r []) = rowBits (b.getD r []) := by
  rw [getD_markCols]
  exact rowBits_mapIdxGo _ (fillBit_colCell b cc) 0 _

theorem colBits_markRows (b : List (List CellState)) (rc : List (List Nat))
    (c : Nat) : colBits (markRows b rc) c = colBits b c := by
  unfold colBits
  apply map_eq_map_of_getD _ _ _ [] (length_markRows b rc)
  intro r
  rw [getD_markRows]
  split_ifs with h
  · exact fillBit_getD_map_emptyToX _ c
  · rfl

theorem colBits_markCols (b : List (List CellState)) (cc : List (List Nat))
    (c : Nat) : colBits (markCols b cc) c = colBits b c := by
  unfold colBits
  apply map_eq_map_of_getD _ _ _ [] (length_markCols b cc)
  intro r
  rw [getD_markCols]
  exact fillBit_getD_mapIdxGo _ (fillBit_colCell b cc) 0 _ c

theorem rowLineDone_congr (rc : List (List Nat)) (r : Nat)
    (row1 row2 : List CellState) (h : rowBits row1 = rowBits row2) :
    rowLineDone rc r row1 = rowLineDone rc r row2 := by
  unfold rowLineDone
  rw [h]

theorem colDone_markRows (b : List (List CellState))
    (rc cc : List (List Nat)) (c : Nat) :
    colDone (markRows b rc) cc c = colDone b cc c := by
  unfold colDone
  rw [colBits_markRows]

theorem colDone_markCols (b : List (List CellState))
    (cc' cc : List (List Nat)) (c : Nat) :
    colDone (markCols b cc') cc c = colDone b cc c := by
  unfold colDone
  rw [colBits_markCols]

theorem headLen_markRows (b : List (List CellState))
    (rc : List (List Nat)) :
    ((markRows b rc).headD []).length = (b.headD []).length := by
  rw [headD_eq_getD_zero, headD_eq_getD_zero, getD_markRows]
  split_ifs with h
  · exact List.length_map _ _
  · rfl

theorem headLen_markCols (b : List (List CellState))
    (cc : List (List Nat)) :
    ((markCols b cc).headD []).length = (b.headD []).length := by
  rw [headD_eq_getD_zero, headD_eq_getD_zero, getD_markCols,
    length_mapIdxGo]

theorem emptyToX_eq_self (x : CellState) (h : x ≠ CellState.Empty) :
    emptyToX x = x := by
  cases x with
  | Empty => exact absurd rfl h
  | Filled => rfl
  | MarkedX => rfl

/-- After a full auto-mark pass, re-running the row phase changes
nothing: every row that matches its clue already had its empties sealed,
and the fill pattern tests are stable. -/
theorem markRows_after_autoMark (b : List (List CellState))
    (rc cc : List (List Nat)) :
    markRows (markCols (markRows b rc) cc) rc =
      markCols (markRows b rc) cc := by
  set b1 := markRows b rc with hb1
  unfold markRows
  apply mapIdxGo_eq_self
  intro r hr
  simp only [Nat.zero_add]
  have hget : (markCols b1 cc).get ⟨r, hr⟩ = (markCols b1 cc).getD r [] := by
    rw [List.getD_eq_getElem?_getD, List.getElem?_eq_getElem hr]
    rfl
  rw [hget]
  have hbits : rowBits ((markCols b1 cc).getD r []) =
      rowBits (b.getD r []) := by
    rw [rowBits_getD_markCols, hb1, rowBits_getD_markRows]
  by_cases hd : rowLineDone rc r (b.getD r []) = true
  · have hrow1 : b1.getD r [] = (b.getD r []).map emptyToX := by
      rw [hb1, getD_markRows, if_pos hd]
    have hNE : ∀ x ∈ b1.getD r [], x ≠ CellState.Empty := by
      rw [hrow1]
      intro x hx
      obtain ⟨y, -, rfl⟩ := List.mem_map.mp hx
      exact emptyToX_ne_empty y
    have hrow2 : (markCols b1 cc).getD r [] = b1.getD r [] := by
      rw [getD_markCols]
      apply mapIdxGo_eq_self_of_mem
      intro i x hx
      rw [if_neg]
      rintro ⟨-, -, hxe⟩
      exact hNE x hx hxe
    have hdone2 : rowLineDone rc r ((markCols b1 cc).getD r []) = true := by
      rw [rowLineDone_congr rc r _ _ hbits]
      exact hd
    rw [if_pos hdone2, hrow2]
    exact map_eq_self_of_mem _ _ fun x hx => emptyToX_eq_self x (hNE x hx)
  · have hdone2 : ¬ rowLineDone rc r ((markCols b1 cc).getD r []) = true := by
      rw [rowLineDone_congr rc r _ _ hbits]
      exact hd
    rw [if_neg hdone2]

/-- One row of a marked board is a fixed point of a second column pass:
every cell in a clue-satisfied column is already non-empty. -/
theorem markCols_row_fix (A : List (List CellState)) (cc : List (List Nat))
    (r : Nat) :
    mapIdxGo
      (fun c cell =>
        if c < ((markCols A cc).headD []).length ∧
            colDone (markCols A cc) cc c = true ∧
            cell = CellState.Empty then MarkedX
        else cell)
      0 ((markCols A cc).getD r []) = (markCols A cc).getD r [] := by
  rw [getD_markCols A cc r]
  apply mapIdxGo_eq_self
  intro j hj
  simp only [Nat.zero_add]
  have hj0 : j < (A.getD r []).length := by
    rw [← length_mapIdxGo
      (fun c cell =>
        if c < (A.headD []).length ∧ colDone A cc c = true ∧
            cell = CellState.Empty then MarkedX
        else cell) 0]
    exact hj
  have hcell := get_mapIdxGo
    (fun c cell =>
      if c < (A.headD []).length ∧ colDone A cc c = true ∧
          cell = CellState.Empty then MarkedX
      else cell) 0 (A.getD r []) j hj
  simp only [Nat.zero_add] at hcell
  rw [if_neg]
  rintro ⟨hjn, hcd, hce⟩
  rw [headLen_markCols] at hjn
  rw [colDone_markCols] at hcd
  rw [hcell] at hce
  by_cases hx : (A.getD r []).get ⟨j, hj0⟩ = CellState.Empty
  · rw [if_pos ⟨hjn, hcd, hx⟩] at hce
    exact absurd hce (by decide)
  · rw [if_neg fun h => hx h.2.2] at hce
    exact hx hce

/-- The column phase is idempotent. -/
theorem markCols_idem (A : List (List CellState)) (cc : List (List Nat)) :
    markCols (markCols A cc) cc = markCols A cc := by
  apply List.ext_getElem
  · rw [length_markCols]
  · intro r h1 h2
    have e1 : (markCols (markCols A cc) cc)[r] =
        (markCols (markCols A cc) cc).getD r [] := by
      rw [List.getD_eq_getElem?_getD, List.getElem?_eq_getElem h1]
      rfl
    have e2 : (markCols A cc)[r] = (markCols A cc).getD r [] := by
      rw [List.getD_eq_getElem?_getD, List.getElem?_eq_getElem h2]
      rfl
    rw [e1, e2, getD_markCols (markCols A cc) cc r]
    exact markCols_row_fix A cc r

/-- **C5**: the auto-mark pass is idempotent — for every board and every
pair of row/column clue arrays, applying `autoMarkCompleted` twice yields
the same board as applying it once; the second pass changes no cell. -/
theorem autoMarkCompleted_idem (b : List (List CellState))
    (rc cc : List (List Nat)) :
    autoMarkCompleted (autoMarkCompleted b rc cc) rc cc =
      autoMarkCompleted b rc cc := by
  unfold autoMarkCompleted
  rw [markRows_after_autoMark b rc cc]
  exact markCols_idem (markRows b rc) cc

/-- One cell of `fallback` (src/logic/generator.ts), the branch
`generateRandomPuzzle` takes when none of the 30 attempts is accepted.
JS numbers are modelled as `ℚ`; `Math.sqrt` is the parameter `sq` (only
`sq 0 = 0` matters below, where every model of the square root agrees);
`Math.random()` results are the explicit stream `rand`, consumed two per
cell in row-major order: call `2*(r*cols+c)` feeds the probability noise
and call `2*(r*cols+c)+1` the fill decision. `maxDist`'s `if m = 0`
reproduces the JS `|| 1` falsy-zero guard. -/
def fallbackCell (rows cols : Nat) (sq : ℚ → ℚ) (rand : Nat → ℚ)
    (r c : Nat) : Nat :=
  let cy : ℚ := ((rows : ℚ) - 1) / 2
  let cx : ℚ := ((cols : ℚ) - 1) / 2
  let m := sq (cy * cy + cx * cx)
  let maxDist := if m = 0 then 1 else m
  let k := 2 * (r * cols + c)
  let d := sq (((r : ℚ) - cy) ^ 2 + ((c : ℚ) - cx) ^ 2) / maxDist
  let p := 7 / 10 - d * (5 / 10) + (rand k - 5 / 10) * (3 / 10)
  if rand (k + 1) < p then 1 else 0

/-- `fallback` (src/logic/generator.ts): the center-weighted random fill
used when the attempt budget is exhausted. -/
def fallback (rows cols : Nat) (sq : ℚ → ℚ) (rand : Nat → ℚ) :
    List (List Nat) :=
  (List.range rows).map fun r =>
    (List.range cols).map fun c => fallbackCell rows cols sq rand r c

/-- On a 1×1 grid with noise sample `1/2` and decision sample `0`, the
fallback fills the cell (`0 < p = 7/10`). -/
theorem fallback_stream_one_eval :
    fallback 1 1 (fun _ => 0) (fun i => if i = 1 then 0 else 1 / 2) =
      [[1]] := by
  unfold fallback fallbackCell
  simp only [List.range_succ, List.range_zero, List.nil_append,
    List.map_cons, List.map_nil]
  norm_num

/-- On the same grid with decision sample `9/10`, the fallback leaves the
cell empty (`9/10 ≥ p = 7/10`). -/
theorem fallback_stream_two_eval :
    fallback 1 1 (fun _ => 0) (fun i => if i = 1 then 9 / 10 else 1 / 2) =
      [[0]] := by
  unfold fallback fallbackCell
  simp only [List.range_succ, List.range_zero, List.nil_append,
    List.map_cons, List.map_nil]
  norm_num

/-- **C7 (counterexample)**: two concrete random streams for which the
fallback produces different 1×1 grids — the fallback is not deterministic
across random streams. -/
theorem fallback_not_stream_independent :
    fallback 1 1 (fun _ => 0) (fun i => if i = 1 then 0 else 1 / 2) ≠
      fallback 1 1 (fun _ => 0) (fun i => if i = 1 then 9 / 10 else 1 / 2) := by
  rw [fallback_stream_one_eval, fallback_stream_two_eval]
  simp

/-- **C7 (amended)**: the fallback grid is a function of the random stream
as well as of `rows` and `cols` — it samples `Math.random()` twice per
cell, and there exist two random streams giving different grids for the
same fixed dimensions. It is deterministic only once the stream is
fixed. -/
theorem fallback_varies_with_stream :
    ∃ s1 s2 : Nat → ℚ,
      fallback 1 1 (fun _ => 0) s1 ≠ fallback 1 1 (fun _ => 0) s2 := by
  refine ⟨fun i => if i = 1 then 0 else 1 / 2,
    fun i => if i = 1 then 9 / 10 else 1 / 2, ?_⟩
  rw [fallback_stream_one_eval, fallback_stream_two_eval]
  simp
